import Mathlib

/-!
Verification of the order-book analytics core.

The development shallowly embeds the Python sources of the repository:
`src/core/orderbook.py` (classes `Order`, `PriceLevel`, `OrderBook`),
`src/analytics/spread_analyzer.py` (`SpreadAnalyzer`) and
`src/analytics/depth_analyzer.py` (`DepthAnalyzer`).

Conventions of the embedding:
* Python floats are modelled as rationals (`ℚ`); every algorithm of the
  source is arithmetic on finitely many samples, so each operation is exact.
* Python `None` becomes `Option`, and Python truthiness on an optional
  float (`if self._mid_price:`) is the predicate `truthy`: present and
  nonzero.
* Python dicts keyed by price become association lists with
  insertion-order semantics: assigning to an existing key overwrites it in
  place, a new key is appended.
* `sorted` (a stable sort) becomes `List.insertionSort`, which is stable
  and produces the same list for the total preorders used here.
* Methods that raise become `Except String`.
* `numpy.std` is kept in squared form (`listVar`); every comparison the
  source makes against a standard deviation is expressed by the exact
  equivalent comparison of squares, and the theorems about the wide-spread
  flag relate that form back to `Real.sqrt`.
-/

set_option allowUnsafeReducibility true
attribute [semireducible] Rat.add Rat.mul Rat.div Rat.sub Rat.inv Rat.neg Rat.ofScientific

namespace OrderBookCore

/-- Python truthiness of an optional float: present and nonzero. -/
def truthy : Option ℚ → Bool
  | none => false
  | some x => decide (x ≠ 0)

/-- `Order` from `orderbook.py`: a single order; `order_id` and `timestamp`
default to `None` and are never set by the book-rebuild path. -/
structure Order where
  price : ℚ
  quantity : ℚ
  order_id : Option String := none
  timestamp : Option Int := none
deriving DecidableEq

/-- `PriceLevel` from `orderbook.py`: a price with its orders and the
running `total_quantity`. -/
structure PriceLevel where
  price : ℚ
  orders : List Order
  total_quantity : ℚ
deriving DecidableEq

/-- `PriceLevel.__init__`: empty level at a price. -/
def PriceLevel.new (price : ℚ) : PriceLevel :=
  { price := price, orders := [], total_quantity := 0 }

/-- `PriceLevel.add_order`: append the order and add its quantity. -/
def PriceLevel.add_order (l : PriceLevel) (o : Order) : PriceLevel :=
  { l with orders := l.orders ++ [o], total_quantity := l.total_quantity + o.quantity }

/-- A Python dict from price to `PriceLevel`, in insertion order. -/
abbrev Levels := List (ℚ × PriceLevel)

/-- Dict assignment `d[k] = v`: overwrite in place, or append a new key. -/
def dictSet : Levels → ℚ → PriceLevel → Levels
  | [], k, v => [(k, v)]
  | (k', v') :: rest, k, v =>
      if k = k' then (k, v) :: rest else (k', v') :: dictSet rest k v

/-- Dict lookup `d.get(k)`. -/
def dictFind : Levels → ℚ → Option PriceLevel
  | [], _ => none
  | (k', v') :: rest, k => if k = k' then some v' else dictFind rest k

/-- Dict lookup `d[k]`.  The source only ever indexes with a key it has put
in the dict; the default (an empty level) models the unreachable miss. -/
def dictGet (d : Levels) (k : ℚ) : PriceLevel :=
  (dictFind d k).getD (PriceLevel.new k)

/-- `OrderBook` state from `orderbook.py`.  `best_bid`, `best_ask` and
`mid_price` are the cached fields `_best_bid`, `_best_ask`, `_mid_price`;
the properties of the same names just read them. -/
structure OrderBook where
  symbol : String
  bid_prices : List ℚ
  ask_prices : List ℚ
  bid_levels : Levels
  ask_levels : Levels
  best_bid : Option ℚ
  best_ask : Option ℚ
  mid_price : Option ℚ
  update_count : ℕ
deriving DecidableEq

/-- `OrderBook.__init__`. -/
def OrderBook.init (symbol : String) : OrderBook :=
  { symbol := symbol, bid_prices := [], ask_prices := [], bid_levels := [],
    ask_levels := [], best_bid := none, best_ask := none, mid_price := none,
    update_count := 0 }

/-- Sort order of the bid-side rebuild:
`sorted(bids, key=lambda x: x[0], reverse=True)`. -/
def bidLe (a b : ℚ × ℚ) : Prop := b.1 ≤ a.1

/-- Sort order of the ask-side rebuild: `sorted(asks, key=lambda x: x[0])`. -/
def askLe (a b : ℚ × ℚ) : Prop := a.1 ≤ b.1

instance : DecidableRel bidLe := fun a b => (inferInstance : Decidable (b.1 ≤ a.1))

instance : DecidableRel askLe := fun a b => (inferInstance : Decidable (a.1 ≤ b.1))

instance : IsTotal (ℚ × ℚ) bidLe := ⟨fun a b => le_total b.1 a.1⟩

instance : IsTotal (ℚ × ℚ) askLe := ⟨fun a b => le_total a.1 b.1⟩

instance : IsTrans (ℚ × ℚ) bidLe := ⟨fun _ _ _ h1 h2 => le_trans h2 h1⟩

instance : IsTrans (ℚ × ℚ) askLe := ⟨fun _ _ _ h1 h2 => le_trans h1 h2⟩

/-- Stable descending-by-price sort of the entries of an `update_bids` call. -/
def sortBids (es : List (ℚ × ℚ)) : List (ℚ × ℚ) := es.insertionSort bidLe

/-- Stable ascending-by-price sort of the entries of an `update_asks` call. -/
def sortAsks (es : List (ℚ × ℚ)) : List (ℚ × ℚ) := es.insertionSort askLe

/-- The filter `if price > 0 and quantity > 0` of the rebuild loops. -/
def entryOk (e : ℚ × ℚ) : Bool := decide (0 < e.1) && decide (0 < e.2)

/-- The price list the rebuild loop appends: one price per retained entry
of the (already sorted) entry list, in order. -/
def rebuildPrices (es : List (ℚ × ℚ)) : List ℚ :=
  (es.filter entryOk).map Prod.fst

/-- The fresh `PriceLevel` the rebuild loop makes for one retained entry:
`level = PriceLevel(price); level.add_order(Order(price, quantity))`. -/
def entryLevel (e : ℚ × ℚ) : PriceLevel :=
  (PriceLevel.new e.1).add_order { price := e.1, quantity := e.2 }

/-- The level dict the rebuild loop produces: for each retained entry of
the (already sorted) entry list, assign a fresh single-order level to its
price, later assignments overwriting earlier ones. -/
def rebuildLevels (es : List (ℚ × ℚ)) : Levels :=
  es.foldl (fun d e => if entryOk e then dictSet d e.1 (entryLevel e) else d) []

/-- `OrderBook._update_caches`: refresh `_best_bid` / `_best_ask` from the
heads of the nonempty price lists (an empty list leaves the cache as it
was), then recompute `_mid_price` when both caches are truthy. -/
def OrderBook.update_caches (b : OrderBook) : OrderBook :=
  let bb := match b.bid_prices with
    | [] => b.best_bid
    | p :: _ => some p
  let ba := match b.ask_prices with
    | [] => b.best_ask
    | p :: _ => some p
  let mid := match bb, ba with
    | some x, some y => if x ≠ 0 ∧ y ≠ 0 then some ((x + y) / 2) else b.mid_price
    | _, _ => b.mid_price
  { b with best_bid := bb, best_ask := ba, mid_price := mid }

/-- `OrderBook.update_bids`: clear and rebuild the bid side from the
sorted, filtered entries, refresh the caches, bump the counter. -/
def OrderBook.update_bids (b : OrderBook) (bids : List (ℚ × ℚ)) : OrderBook :=
  let sorted := sortBids bids
  let b' := ({ b with bid_prices := rebuildPrices sorted,
                      bid_levels := rebuildLevels sorted } : OrderBook).update_caches
  { b' with update_count := b'.update_count + 1 }

/-- `OrderBook.update_asks`: clear and rebuild the ask side from the
sorted, filtered entries, refresh the caches, bump the counter. -/
def OrderBook.update_asks (b : OrderBook) (asks : List (ℚ × ℚ)) : OrderBook :=
  let sorted := sortAsks asks
  let b' := ({ b with ask_prices := rebuildPrices sorted,
                      ask_levels := rebuildLevels sorted } : OrderBook).update_caches
  { b' with update_count := b'.update_count + 1 }

/-- `OrderBook.get_spread`: `best_ask - best_bid` when both cached values
are truthy, else `None`. -/
def OrderBook.get_spread (b : OrderBook) : Option ℚ :=
  match b.best_bid, b.best_ask with
  | some x, some y => if x ≠ 0 ∧ y ≠ 0 then some (y - x) else none
  | _, _ => none

/-- One row of a `get_depth` answer. -/
structure DepthLevel where
  price : ℚ
  quantity : ℚ
  order_count : ℕ
deriving DecidableEq

/-- The dict `get_depth` returns. -/
structure Depth where
  bids : List DepthLevel
  asks : List DepthLevel
  total_bid_volume : ℚ
  total_ask_volume : ℚ
deriving DecidableEq

/-- One side of `get_depth`: walk the first `levels` prices, emit
(price, total quantity, order count) and accumulate the volume. -/
def depthSide (prices : List ℚ) (d : Levels) (levels : ℕ) : List DepthLevel × ℚ :=
  (prices.take levels).foldl
    (fun acc p =>
      let l := dictGet d p
      (acc.1 ++ [{ price := p, quantity := l.total_quantity,
                   order_count := l.orders.length }],
       acc.2 + l.total_quantity))
    ([], 0)

/-- `OrderBook.get_depth`. -/
def OrderBook.get_depth (b : OrderBook) (levels : ℕ := 10) : Depth :=
  let bs := depthSide b.bid_prices b.bid_levels levels
  let as_ := depthSide b.ask_prices b.ask_levels levels
  { bids := bs.1, asks := as_.1, total_bid_volume := bs.2, total_ask_volume := as_.2 }

instance {ε α : Type} [DecidableEq ε] [DecidableEq α] : DecidableEq (Except ε α) :=
  fun x y =>
    match x, y with
    | .error a, .error b =>
        if h : a = b then isTrue (by rw [h])
        else isFalse (by intro hh; cases hh; exact h rfl)
    | .ok a, .ok b =>
        if h : a = b then isTrue (by rw [h])
        else isFalse (by intro hh; cases hh; exact h rfl)
    | .error _, .ok _ => isFalse (by intro hh; cases hh)
    | .ok _, .error _ => isFalse (by intro hh; cases hh)

/-- The result dict of `estimate_vwap`. -/
structure VwapResult where
  vwap : ℚ
  filled : ℚ
  remaining : ℚ
deriving DecidableEq

/-- The `for price in levels` loop of `estimate_vwap`: walk the price list
accumulating `(total_cost, filled_quantity)`; take a whole level while it
fits, else take the remainder of the requested quantity and stop. -/
def vwapWalk (quantity : ℚ) (d : Levels) :
    List ℚ → ℚ → ℚ → ℚ × ℚ
  | [], total_cost, filled => (total_cost, filled)
  | p :: rest, total_cost, filled =>
      let available := (dictGet d p).total_quantity
      if filled + available ≤ quantity then
        vwapWalk quantity d rest (total_cost + p * available) (filled + available)
      else
        (total_cost + p * (quantity - filled), quantity)

/-- `OrderBook.estimate_vwap`: reject a side outside buy/sell, walk the
opposing side, and divide cost by fill unless nothing filled. -/
def OrderBook.estimate_vwap (b : OrderBook) (quantity : ℚ) (side : String) :
    Except String VwapResult :=
  if side ≠ "buy" ∧ side ≠ "sell" then
    .error "Side must be buy or sell"
  else
    let levels := if side = "buy" then b.ask_prices else b.bid_prices
    let level_dict := if side = "buy" then b.ask_levels else b.bid_levels
    let walk := vwapWalk quantity level_dict levels 0 0
    if walk.2 = 0 then
      .ok { vwap := 0, filled := 0, remaining := quantity }
    else
      .ok { vwap := walk.1 / walk.2, filled := walk.2,
            remaining := quantity - walk.2 }

/-- The result dict of `estimate_slippage`.  The three trailing fields are
only present on the full (non-degenerate) path of the source. -/
structure SlippageResult where
  slippage_bps : ℚ
  slippage_abs : ℚ
  vwap : Option ℚ := none
  mid_price : Option ℚ := none
  filled : Option ℚ := none
deriving DecidableEq

/-- `OrderBook.estimate_slippage`: zero result when the mid price is not
truthy, then delegate to `estimate_vwap` (propagating its error), zero
result when nothing filled, else signed slippage and its bps scaling. -/
def OrderBook.estimate_slippage (b : OrderBook) (quantity : ℚ) (side : String) :
    Except String SlippageResult :=
  if ¬ truthy b.mid_price then
    .ok { slippage_bps := 0, slippage_abs := 0 }
  else
    match b.estimate_vwap quantity side with
    | .error e => .error e
    | .ok r =>
        if r.filled = 0 then
          .ok { slippage_bps := 0, slippage_abs := 0 }
        else
          let mid := b.mid_price.getD 0
          let slippage_abs := if side = "buy" then r.vwap - mid else mid - r.vwap
          .ok { slippage_bps := slippage_abs / mid * 10000,
                slippage_abs := slippage_abs,
                vwap := some r.vwap, mid_price := some mid, filled := some r.filled }

/-! ## SpreadAnalyzer (`src/analytics/spread_analyzer.py`)

The analyzer object holds a reference to the book and a bounded history
list; the embedding passes the book and the history explicitly and returns
the new history. -/

/-- `numpy.mean` of a sample list (only ever applied to nonempty lists by
the source). -/
def listMean (l : List ℚ) : ℚ := l.sum / l.length

/-- The square of `numpy.std` (population variance).  The source only
compares its standard deviations against other quantities, and every such
comparison is expressed below by the exactly equivalent comparison of
squares, so the square is what the embedding stores. -/
def listVar (l : List ℚ) : ℚ :=
  (l.map (fun x => (x - listMean l) ^ 2)).sum / l.length

/-- The `SpreadMetrics` dataclass.  `spread_volatility_sq` holds the square
of the source's `spread_volatility` (see `listVar`). -/
structure SpreadMetrics where
  absolute_spread : ℚ := 0
  relative_spread : ℚ := 0
  spread_bps : ℚ := 0
  effective_spread : ℚ := 0
  price_impact : ℚ := 0
  spread_volatility_sq : ℚ := 0
  is_wide_spread : Bool := false
deriving DecidableEq

/-- `SpreadAnalyzer.calculate_price_impact` at the default `quantity=1.0`
(the only quantity `calculate_all_metrics` uses; `sqrt(1) = 1`, so the
square-root factor drops out exactly): `spread / (avg_liquidity * mid) * mid`. -/
def SpreadAnalyzer.calculate_price_impact (book : OrderBook) : ℚ :=
  if ¬ truthy book.mid_price then 0
  else
    let depth := book.get_depth 10
    if depth.bids.isEmpty ∨ depth.asks.isEmpty then 0
    else
      let bid_liquidity := (depth.bids.map (·.quantity)).sum
      let ask_liquidity := (depth.asks.map (·.quantity)).sum
      let avg_liquidity := (bid_liquidity + ask_liquidity) / 2
      if avg_liquidity = 0 then 0
      else
        match book.get_spread with
        | none => 0
        | some spread =>
            let mid := book.mid_price.getD 0
            spread / (avg_liquidity * mid) * mid

/-- `SpreadAnalyzer._detect_wide_spread`.  The source tests
`std > 0 and bps > avg + 3 * std` with `std = numpy.std(recent)`; for a
real `std = sqrt(var) ≥ 0` that conjunction is exactly
`0 < var ∧ avg < bps ∧ 9 * var < (bps - avg) ^ 2`, which is the decidable
form used here (`detect_wide_spread_iff_sigma` proves the equivalence). -/
def SpreadAnalyzer.detect_wide_spread (history : List SpreadMetrics)
    (m : SpreadMetrics) : Bool :=
  if history.length < 10 then false
  else
    let recent := (history.drop (history.length - 10)).map (·.spread_bps)
    let avg := listMean recent
    let var := listVar recent
    if 0 < var ∧ avg < m.spread_bps ∧ 9 * var < (m.spread_bps - avg) ^ 2 then true
    else if 50 < m.spread_bps then true
    else false

/-- `SpreadAnalyzer.calculate_all_metrics`: degenerate default (and no
history append) when spread or mid is absent or mid is zero; otherwise
build the metrics record, append it and evict beyond 1000 entries.
Returns the metrics together with the new history. -/
def SpreadAnalyzer.calculate_all_metrics (book : OrderBook)
    (history : List SpreadMetrics) : SpreadMetrics × List SpreadMetrics :=
  match book.get_spread, book.mid_price with
  | some spread, some mid_price =>
      if mid_price = 0 then (({} : SpreadMetrics), history)
      else
        let relative_spread := spread / mid_price * 100
        let spread_bps := relative_spread * 100
        let effective_spread :=
          if truthy book.best_bid ∧ truthy book.best_ask then
            |2 * (mid_price - (book.best_bid.getD 0 + book.best_ask.getD 0) / 2)|
          else 0
        let price_impact := SpreadAnalyzer.calculate_price_impact book
        let spread_volatility_sq :=
          if 1 < history.length then
            listVar ((history.drop (history.length - 100)).map (·.absolute_spread))
          else 0
        let m0 : SpreadMetrics :=
          { absolute_spread := spread, relative_spread := relative_spread,
            spread_bps := spread_bps, effective_spread := effective_spread,
            price_impact := price_impact,
            spread_volatility_sq := spread_volatility_sq }
        let m : SpreadMetrics := { m0 with is_wide_spread := SpreadAnalyzer.detect_wide_spread history m0 }
        let h : List SpreadMetrics := history ++ [m]
        (m, if 1000 < h.length then h.tail else h)
  | _, _ => (({} : SpreadMetrics), history)

/-! ## DepthAnalyzer (`src/analytics/depth_analyzer.py`)

Only the resilience score is needed by the claims. -/

/-- The local `herfindahl_index` of `_calculate_resilience_score`: sum of
squared shares of the side total, and `1.0` (the worst case) for a zero
total. -/
def herfindahl_index (volumes : List ℚ) : ℚ :=
  let total := volumes.sum
  if total = 0 then 1
  else (volumes.map (fun v => (v / total) ^ 2)).sum

/-- `DepthAnalyzer._calculate_resilience_score`: `0` when either side of
the queried depth has fewer than 3 levels, else
`100 * (1 - mean of the two Herfindahl concentrations)` clamped to
`[0, 100]`. -/
def DepthAnalyzer.calculate_resilience_score (depth : Depth) : ℚ :=
  if depth.bids.length < 3 ∨ depth.asks.length < 3 then 0
  else
    let bid_concentration := herfindahl_index (depth.bids.map (·.quantity))
    let ask_concentration := herfindahl_index (depth.asks.map (·.quantity))
    max 0 (min 100 (100 * (1 - (bid_concentration + ask_concentration) / 2)))

/-! ## Characterization of the rebuilt side -/

/-- The last retained entry at price `p` of an entry list (the rebuild
loop's dict assignment makes later entries overwrite earlier ones). -/
def lastRetained (p : ℚ) : List (ℚ × ℚ) → Option ℚ
  | [] => none
  | e :: rest =>
      match lastRetained p rest with
      | some q => some q
      | none => if entryOk e ∧ e.1 = p then some e.2 else none

theorem dictFind_dictSet_self (d : Levels) (k : ℚ) (v : PriceLevel) :
    dictFind (dictSet d k v) k = some v := by
  induction d with
  | nil => simp [dictSet, dictFind]
  | cons e rest ih =>
      by_cases h : k = e.1
      · simp [dictSet, dictFind, h]
      · simp only [dictSet, dictFind]
        rw [if_neg h, dictFind, if_neg h]
        exact ih

theorem dictFind_dictSet_ne (d : Levels) {k k' : ℚ} (v : PriceLevel)
    (h : k ≠ k') : dictFind (dictSet d k' v) k = dictFind d k := by
  induction d with
  | nil => simp [dictSet, dictFind, h]
  | cons e rest ih =>
      by_cases h2 : k' = e.1
      · subst h2
        simp [dictSet, dictFind, h]
      · simp only [dictSet]
        rw [if_neg h2]
        by_cases h3 : k = e.1
        · simp [dictFind, h3]
        · simp only [dictFind]
          rw [if_neg h3, if_neg h3]
          exact ih

theorem dictFind_rebuild_go (es : List (ℚ × ℚ)) (p : ℚ) : ∀ d : Levels,
    dictFind (es.foldl
      (fun d e => if entryOk e then dictSet d e.1 (entryLevel e) else d) d) p =
      match lastRetained p es with
      | some q => some (entryLevel (p, q))
      | none => dictFind d p := by
  induction es with
  | nil => intro d; simp [lastRetained]
  | cons e rest ih =>
      intro d
      rw [List.foldl_cons, ih]
      rcases h : lastRetained p rest with _ | q
      · simp only [lastRetained, h]
        by_cases hok : entryOk e
        · by_cases hp : e.1 = p
          · subst hp
            simp only [hok, if_pos, reduceIte, and_true]
            rw [dictFind_dictSet_self]
          · have hne : p ≠ e.1 := fun hc => hp hc.symm
            simp only [hok, reduceIte]
            rw [dictFind_dictSet_ne _ _ hne]
            simp [hok, hp]
        · simp [hok]
      · simp [lastRetained, h]

/-- Dict lookup in a rebuilt side: the level of the last retained entry at
that price, holding exactly that entry as its single order. -/
theorem dictFind_rebuildLevels (es : List (ℚ × ℚ)) (p : ℚ) :
    dictFind (rebuildLevels es) p =
      (lastRetained p es).map (fun q => entryLevel (p, q)) := by
  rw [rebuildLevels, dictFind_rebuild_go]
  rcases lastRetained p es with _ | q <;> simp [dictFind]

theorem lastRetained_pos {p : ℚ} {es : List (ℚ × ℚ)} {q : ℚ}
    (h : lastRetained p es = some q) : 0 < p ∧ 0 < q := by
  induction es with
  | nil => simp [lastRetained] at h
  | cons e rest ih =>
      rw [lastRetained] at h
      rcases h2 : lastRetained p rest with _ | q2
      · rw [h2] at h
        simp only at h
        split at h
        · next hcond =>
            obtain ⟨hok, hp⟩ := hcond
            cases h
            rw [entryOk, Bool.and_eq_true, decide_eq_true_eq, decide_eq_true_eq] at hok
            exact ⟨hp ▸ hok.1, hok.2⟩
        · exact absurd h (by simp)
      · rw [h2] at h
        cases h
        exact ih h2

theorem mem_rebuildPrices_lastRetained {p : ℚ} {es : List (ℚ × ℚ)}
    (h : p ∈ rebuildPrices es) : ∃ q, lastRetained p es = some q := by
  induction es with
  | nil => simp [rebuildPrices] at h
  | cons e rest ih =>
      rw [rebuildPrices, List.filter_cons] at h
      rcases h2 : lastRetained p rest with _ | q2
      · by_cases hok : entryOk e
        · rw [if_pos hok, List.map_cons, List.mem_cons] at h
          rcases h with h | h
          · refine ⟨e.2, ?_⟩
            rw [lastRetained, h2]
            simp [hok, h.symm]
          · obtain ⟨q, hq⟩ := ih h
            rw [hq] at h2; cases h2
        · rw [if_neg hok] at h
          obtain ⟨q, hq⟩ := ih h
          rw [hq] at h2; cases h2
      · exact ⟨q2, by rw [lastRetained, h2]⟩

theorem rebuildPrices_pos {p : ℚ} {es : List (ℚ × ℚ)}
    (h : p ∈ rebuildPrices es) : 0 < p := by
  rw [rebuildPrices, List.mem_map] at h
  obtain ⟨e, he, hp⟩ := h
  rw [List.mem_filter, entryOk, Bool.and_eq_true, decide_eq_true_eq] at he
  exact hp ▸ he.2.1

/-! ## Sortedness of the rebuilt price lists -/

theorem rebuildPrices_sortBids_pairwise (es : List (ℚ × ℚ)) :
    (rebuildPrices (sortBids es)).Pairwise (fun x y => y ≤ x) := by
  have hs : (sortBids es).Pairwise bidLe := List.sorted_insertionSort bidLe es
  rw [rebuildPrices, List.pairwise_map]
  exact (hs.filter entryOk).imp (fun h => h)

theorem rebuildPrices_sortAsks_pairwise (es : List (ℚ × ℚ)) :
    (rebuildPrices (sortAsks es)).Pairwise (fun x y => x ≤ y) := by
  have hs : (sortAsks es).Pairwise askLe := List.sorted_insertionSort askLe es
  rw [rebuildPrices, List.pairwise_map]
  exact (hs.filter entryOk).imp (fun h => h)

/-! ## Reachable book states and their invariant -/

/-- The books reachable from a fresh `OrderBook` by update calls. -/
inductive Reachable : OrderBook → Prop
  | init (s : String) : Reachable (OrderBook.init s)
  | update_bids {b : OrderBook} (es : List (ℚ × ℚ)) :
      Reachable b → Reachable (b.update_bids es)
  | update_asks {b : OrderBook} (es : List (ℚ × ℚ)) :
      Reachable b → Reachable (b.update_asks es)

/-- The state invariant every reachable book satisfies. -/
structure Inv (b : OrderBook) : Prop where
  bid_sorted : b.bid_prices.Pairwise (fun x y => y ≤ x)
  ask_sorted : b.ask_prices.Pairwise (fun x y => x ≤ y)
  bid_pos : ∀ p ∈ b.bid_prices, 0 < p
  ask_pos : ∀ p ∈ b.ask_prices, 0 < p
  bb_head : b.bid_prices ≠ [] → b.best_bid = b.bid_prices.head?
  ba_head : b.ask_prices ≠ [] → b.best_ask = b.ask_prices.head?
  bb_pos : ∀ x, b.best_bid = some x → 0 < x
  ba_pos : ∀ x, b.best_ask = some x → 0 < x
  mid_eq : ∀ x y, b.best_bid = some x → b.best_ask = some y →
    b.mid_price = some ((x + y) / 2)
  mid_none : b.best_bid = none ∨ b.best_ask = none → b.mid_price = none
  bid_levels_pos : ∀ p ∈ b.bid_prices,
    ∃ l, dictFind b.bid_levels p = some l ∧ 0 < l.total_quantity
  ask_levels_pos : ∀ p ∈ b.ask_prices,
    ∃ l, dictFind b.ask_levels p = some l ∧ 0 < l.total_quantity

theorem inv_init (s : String) : Inv (OrderBook.init s) := by
  constructor <;> simp [OrderBook.init]

theorem update_bids_bid_prices (b : OrderBook) (es : List (ℚ × ℚ)) :
    (b.update_bids es).bid_prices = rebuildPrices (sortBids es) := rfl

theorem update_bids_bid_levels (b : OrderBook) (es : List (ℚ × ℚ)) :
    (b.update_bids es).bid_levels = rebuildLevels (sortBids es) := rfl

theorem update_bids_ask_prices (b : OrderBook) (es : List (ℚ × ℚ)) :
    (b.update_bids es).ask_prices = b.ask_prices := rfl

theorem update_bids_ask_levels (b : OrderBook) (es : List (ℚ × ℚ)) :
    (b.update_bids es).ask_levels = b.ask_levels := rfl

theorem update_bids_best_bid (b : OrderBook) (es : List (ℚ × ℚ)) :
    (b.update_bids es).best_bid =
      match rebuildPrices (sortBids es) with
      | [] => b.best_bid
      | p :: _ => some p := rfl

theorem update_bids_best_ask (b : OrderBook) (es : List (ℚ × ℚ)) :
    (b.update_bids es).best_ask =
      match b.ask_prices with
      | [] => b.best_ask
      | p :: _ => some p := rfl

theorem update_bids_mid_price (b : OrderBook) (es : List (ℚ × ℚ)) :
    (b.update_bids es).mid_price =
      match (b.update_bids es).best_bid, (b.update_bids es).best_ask with
      | some x, some y => if x ≠ 0 ∧ y ≠ 0 then some ((x + y) / 2) else b.mid_price
      | _, _ => b.mid_price := rfl

theorem update_asks_ask_prices (b : OrderBook) (es : List (ℚ × ℚ)) :
    (b.update_asks es).ask_prices = rebuildPrices (sortAsks es) := rfl

theorem update_asks_ask_levels (b : OrderBook) (es : List (ℚ × ℚ)) :
    (b.update_asks es).ask_levels = rebuildLevels (sortAsks es) := rfl

theorem update_asks_bid_prices (b : OrderBook) (es : List (ℚ × ℚ)) :
    (b.update_asks es).bid_prices = b.bid_prices := rfl

theorem update_asks_bid_levels (b : OrderBook) (es : List (ℚ × ℚ)) :
    (b.update_asks es).bid_levels = b.bid_levels := rfl

theorem update_asks_best_ask (b : OrderBook) (es : List (ℚ × ℚ)) :
    (b.update_asks es).best_ask =
      match rebuildPrices (sortAsks es) with
      | [] => b.best_ask
      | p :: _ => some p := rfl

theorem update_asks_best_bid (b : OrderBook) (es : List (ℚ × ℚ)) :
    (b.update_asks es).best_bid =
      match b.bid_prices with
      | [] => b.best_bid
      | p :: _ => some p := rfl

theorem update_asks_mid_price (b : OrderBook) (es : List (ℚ × ℚ)) :
    (b.update_asks es).mid_price =
      match (b.update_asks es).best_bid, (b.update_asks es).best_ask with
      | some x, some y => if x ≠ 0 ∧ y ≠ 0 then some ((x + y) / 2) else b.mid_price
      | _, _ => b.mid_price := rfl

/-- An `update_bids` call leaves `_best_ask` unchanged on any book whose
cache agrees with the head of its ask price list. -/
theorem update_bids_best_ask_eq (b : OrderBook) (es : List (ℚ × ℚ)) (hb : Inv b) :
    (b.update_bids es).best_ask = b.best_ask := by
  rw [update_bids_best_ask]
  rcases h : b.ask_prices with _ | ⟨p, rest⟩
  · rfl
  · have hh := hb.ba_head (by simp [h])
    rw [h] at hh
    simpa using hh.symm

/-- An `update_asks` call leaves `_best_bid` unchanged on any book whose
cache agrees with the head of its bid price list. -/
theorem update_asks_best_bid_eq (b : OrderBook) (es : List (ℚ × ℚ)) (hb : Inv b) :
    (b.update_asks es).best_bid = b.best_bid := by
  rw [update_asks_best_bid]
  rcases h : b.bid_prices with _ | ⟨p, rest⟩
  · rfl
  · have hh := hb.bb_head (by simp [h])
    rw [h] at hh
    simpa using hh.symm

theorem inv_update_bids (b : OrderBook) (es : List (ℚ × ℚ)) (hb : Inv b) :
    Inv (b.update_bids es) := by
  have hbb_pos : ∀ x, (b.update_bids es).best_bid = some x → 0 < x := by
    intro x hx
    rw [update_bids_best_bid] at hx
    rcases h : rebuildPrices (sortBids es) with _ | ⟨p, rest⟩
    · rw [h] at hx
      exact hb.bb_pos x hx
    · rw [h] at hx
      simp only at hx
      cases hx
      exact rebuildPrices_pos (h ▸ List.mem_cons_self x rest)
  have hba_pos : ∀ x, (b.update_bids es).best_ask = some x → 0 < x := by
    intro x hx
    rw [update_bids_best_ask] at hx
    rcases h : b.ask_prices with _ | ⟨p, rest⟩
    · rw [h] at hx
      exact hb.ba_pos x hx
    · rw [h] at hx
      simp only at hx
      cases hx
      exact hb.ask_pos x (h ▸ List.mem_cons_self x rest)
  constructor
  case bid_sorted =>
    rw [update_bids_bid_prices]
    exact rebuildPrices_sortBids_pairwise es
  case ask_sorted =>
    rw [update_bids_ask_prices]
    exact hb.ask_sorted
  case bid_pos =>
    rw [update_bids_bid_prices]
    exact fun p hp => rebuildPrices_pos hp
  case ask_pos =>
    rw [update_bids_ask_prices]
    exact hb.ask_pos
  case bb_head =>
    rw [update_bids_bid_prices, update_bids_best_bid]
    rcases h : rebuildPrices (sortBids es) with _ | ⟨p, rest⟩
    · intro hne; exact absurd rfl hne
    · intro _; rfl
  case ba_head =>
    rw [update_bids_ask_prices, update_bids_best_ask]
    intro hne
    rcases h : b.ask_prices with _ | ⟨p, rest⟩
    · exact absurd h hne
    · rfl
  case bb_pos => exact hbb_pos
  case ba_pos => exact hba_pos
  case mid_eq =>
    intro x y hx hy
    rw [update_bids_mid_price, hx, hy]
    simp only
    rw [if_pos ⟨ne_of_gt (hbb_pos x hx), ne_of_gt (hba_pos y hy)⟩]
  case mid_none =>
    intro h
    rw [update_bids_mid_price]
    rcases hx : (b.update_bids es).best_bid with _ | x
    · have hmb : b.best_bid = none ∧ rebuildPrices (sortBids es) = [] := by
        rw [update_bids_best_bid] at hx
        rcases h2 : rebuildPrices (sortBids es) with _ | ⟨p, rest⟩
        · rw [h2] at hx; exact ⟨hx, rfl⟩
        · rw [h2] at hx; simp at hx
      simp only
      exact hb.mid_none (Or.inl hmb.1)
    · rcases hy : (b.update_bids es).best_ask with _ | y
      · have hma : b.best_ask = none := by
          rw [update_bids_best_ask] at hy
          rcases h2 : b.ask_prices with _ | ⟨p, rest⟩
          · rw [h2] at hy; exact hy
          · rw [h2] at hy; simp at hy
        simp only
        exact hb.mid_none (Or.inr hma)
      · rcases h with h | h
        · rw [hx] at h; cases h
        · rw [hy] at h; cases h
  case bid_levels_pos =>
    rw [update_bids_bid_prices, update_bids_bid_levels]
    intro p hp
    obtain ⟨q, hq⟩ := mem_rebuildPrices_lastRetained hp
    refine ⟨entryLevel (p, q), ?_, ?_⟩
    · rw [dictFind_rebuildLevels, hq]; rfl
    · have := (lastRetained_pos hq).2
      simp only [entryLevel, PriceLevel.add_order, PriceLevel.new]
      linarith
  case ask_levels_pos =>
    rw [update_bids_ask_prices, update_bids_ask_levels]
    exact hb.ask_levels_pos

theorem inv_update_asks (b : OrderBook) (es : List (ℚ × ℚ)) (hb : Inv b) :
    Inv (b.update_asks es) := by
  have hba_pos : ∀ x, (b.update_asks es).best_ask = some x → 0 < x := by
    intro x hx
    rw [update_asks_best_ask] at hx
    rcases h : rebuildPrices (sortAsks es) with _ | ⟨p, rest⟩
    · rw [h] at hx
      exact hb.ba_pos x hx
    · rw [h] at hx
      simp only at hx
      cases hx
      exact rebuildPrices_pos (h ▸ List.mem_cons_self x rest)
  have hbb_pos : ∀ x, (b.update_asks es).best_bid = some x → 0 < x := by
    intro x hx
    rw [update_asks_best_bid] at hx
    rcases h : b.bid_prices with _ | ⟨p, rest⟩
    · rw [h] at hx
      exact hb.bb_pos x hx
    · rw [h] at hx
      simp only at hx
      cases hx
      exact hb.bid_pos x (h ▸ List.mem_cons_self x rest)
  constructor
  case ask_sorted =>
    rw [update_asks_ask_prices]
    exact rebuildPrices_sortAsks_pairwise es
  case bid_sorted =>
    rw [update_asks_bid_prices]
    exact hb.bid_sorted
  case ask_pos =>
    rw [update_asks_ask_prices]
    exact fun p hp => rebuildPrices_pos hp
  case bid_pos =>
    rw [update_asks_bid_prices]
    exact hb.bid_pos
  case ba_head =>
    rw [update_asks_ask_prices, update_asks_best_ask]
    rcases h : rebuildPrices (sortAsks es) with _ | ⟨p, rest⟩
    · intro hne; exact absurd rfl hne
    · intro _; rfl
  case bb_head =>
    rw [update_asks_bid_prices, update_asks_best_bid]
    intro hne
    rcases h : b.bid_prices with _ | ⟨p, rest⟩
    · exact absurd h hne
    · rfl
  case bb_pos => exact hbb_pos
  case ba_pos => exact hba_pos
  case mid_eq =>
    intro x y hx hy
    rw [update_asks_mid_price, hx, hy]
    simp only
    rw [if_pos ⟨ne_of_gt (hbb_pos x hx), ne_of_gt (hba_pos y hy)⟩]
  case mid_none =>
    intro h
    rw [update_asks_mid_price]
    rcases hx : (b.update_asks es).best_bid with _ | x
    · have hmb : b.best_bid = none := by
        rw [update_asks_best_bid] at hx
        rcases h2 : b.bid_prices with _ | ⟨p, rest⟩
        · rw [h2] at hx; exact hx
        · rw [h2] at hx; simp at hx
      simp only
      exact hb.mid_none (Or.inl hmb)
    · rcases hy : (b.update_asks es).best_ask with _ | y
      · have hma : b.best_ask = none := by
          rw [update_asks_best_ask] at hy
          rcases h2 : rebuildPrices (sortAsks es) with _ | ⟨p, rest⟩
          · rw [h2] at hy; exact hy
          · rw [h2] at hy; simp at hy
        simp only
        exact hb.mid_none (Or.inr hma)
      · rcases h with h | h
        · rw [hx] at h; cases h
        · rw [hy] at h; cases h
  case ask_levels_pos =>
    rw [update_asks_ask_prices, update_asks_ask_levels]
    intro p hp
    obtain ⟨q, hq⟩ := mem_rebuildPrices_lastRetained hp
    refine ⟨entryLevel (p, q), ?_, ?_⟩
    · rw [dictFind_rebuildLevels, hq]; rfl
    · have := (lastRetained_pos hq).2
      simp only [entryLevel, PriceLevel.add_order, PriceLevel.new]
      linarith
  case bid_levels_pos =>
    rw [update_asks_bid_prices, update_asks_bid_levels]
    exact hb.bid_levels_pos

/-- Every reachable book satisfies the invariant. -/
theorem reachable_inv {b : OrderBook} (h : Reachable b) : Inv b := by
  induction h with
  | init s => exact inv_init s
  | update_bids es _ ih => exact inv_update_bids _ es ih
  | update_asks es _ ih => exact inv_update_asks _ es ih

/-! ## Liquidity of a walked side, and the walk's fill bounds -/

/-- The cumulative liquidity `estimate_vwap` can consume on one side: the
sum of `total_quantity` over the side's price list. -/
def sideLiquidity (prices : List ℚ) (d : Levels) : ℚ :=
  (prices.map (fun p => (dictGet d p).total_quantity)).sum

theorem vwapWalk_filled_le (q : ℚ) (d : Levels) (prices : List ℚ) :
    ∀ c f : ℚ, f ≤ q → (vwapWalk q d prices c f).2 ≤ q := by
  induction prices with
  | nil => intro c f h; exact h
  | cons p rest ih =>
      intro c f h
      simp only [vwapWalk]
      split
      · next hfit => exact ih _ _ hfit
      · exact le_refl q

theorem vwapWalk_filled_eq (q : ℚ) (d : Levels) (prices : List ℚ) :
    ∀ c f : ℚ, f ≤ q → q ≤ f + sideLiquidity prices d →
      (vwapWalk q d prices c f).2 = q := by
  induction prices with
  | nil =>
      intro c f h1 h2
      simp only [sideLiquidity, List.map_nil, List.sum_nil, add_zero] at h2
      exact le_antisymm h1 h2
  | cons p rest ih =>
      intro c f h1 h2
      simp only [sideLiquidity, List.map_cons, List.sum_cons] at h2
      simp only [vwapWalk]
      split
      · next hfit =>
          apply ih _ _ hfit
          simp only [sideLiquidity]
          linarith
      · rfl

/-! ## Statistics helpers: sums of squares, Herfindahl, variance -/

theorem sum_sq_le_sq_sum (l : List ℚ) (h : ∀ x ∈ l, 0 ≤ x) :
    (l.map (fun x => x ^ 2)).sum ≤ l.sum ^ 2 := by
  induction l with
  | nil => simp
  | cons a t ih =>
      have ha : 0 ≤ a := h a (List.mem_cons_self a t)
      have ht : ∀ x ∈ t, 0 ≤ x := fun x hx => h x (List.mem_cons_of_mem a hx)
      have hts : 0 ≤ t.sum := List.sum_nonneg ht
      have hih := ih ht
      simp only [List.map_cons, List.sum_cons]
      nlinarith

theorem sum_div_sq (l : List ℚ) (t : ℚ) :
    (l.map (fun v => (v / t) ^ 2)).sum = (l.map (fun v => v ^ 2)).sum / t ^ 2 := by
  induction l with
  | nil => simp
  | cons a r ih =>
      rw [List.map_cons, List.sum_cons, List.map_cons, List.sum_cons, ih, div_pow, add_div]

theorem herfindahl_nonneg (l : List ℚ) : 0 ≤ herfindahl_index l := by
  rw [herfindahl_index]
  split
  · norm_num
  · apply List.sum_nonneg
    intro x hx
    rw [List.mem_map] at hx
    obtain ⟨v, _, rfl⟩ := hx
    positivity

theorem herfindahl_le_one (l : List ℚ) (h : ∀ x ∈ l, 0 ≤ x) :
    herfindahl_index l ≤ 1 := by
  rw [herfindahl_index]
  split
  · exact le_refl 1
  · next ht =>
      have htpos : 0 < l.sum := lt_of_le_of_ne (List.sum_nonneg h) (Ne.symm ht)
      rw [sum_div_sq, div_le_one (by positivity)]
      exact sum_sq_le_sq_sum l h

theorem listVar_nonneg (l : List ℚ) : 0 ≤ listVar l := by
  rw [listVar]
  apply div_nonneg
  · apply List.sum_nonneg
    intro x hx
    rw [List.mem_map] at hx
    obtain ⟨v, _, rfl⟩ := hx
    positivity
  · positivity

/-- The source's 3-sigma test `std > 0 and bps > avg + 3 * std` (with
`std = sqrt var`), restated exactly over the variance. -/
theorem sigma_test_iff (bps avg var : ℚ) (hvar : 0 ≤ var) :
    (0 < var ∧ avg < bps ∧ 9 * var < (bps - avg) ^ 2) ↔
      (0 < Real.sqrt (var : ℝ) ∧ (avg : ℝ) + 3 * Real.sqrt (var : ℝ) < (bps : ℝ)) := by
  have hcast : (0 : ℝ) ≤ (var : ℝ) := by exact_mod_cast hvar
  constructor
  · rintro ⟨h1, h2, h3⟩
    have h1r : (0 : ℝ) < (var : ℝ) := by exact_mod_cast h1
    refine ⟨Real.sqrt_pos.mpr h1r, ?_⟩
    have h2r : (avg : ℝ) < (bps : ℝ) := by exact_mod_cast h2
    have h3r : 9 * (var : ℝ) < ((bps : ℝ) - (avg : ℝ)) ^ 2 := by
      have := h3
      push_cast at this ⊢
      exact_mod_cast this
    have hsq : Real.sqrt (9 * (var : ℝ)) < (bps : ℝ) - (avg : ℝ) :=
      (Real.sqrt_lt' (by linarith)).mpr h3r
    have h9 : Real.sqrt (9 * (var : ℝ)) = 3 * Real.sqrt (var : ℝ) := by
      rw [show (9 : ℝ) * (var : ℝ) = 3 ^ 2 * (var : ℝ) by ring,
        Real.sqrt_mul (by positivity), Real.sqrt_sq (by norm_num)]
    linarith [h9 ▸ hsq]
  · rintro ⟨h1, h2⟩
    have hvpos : (0 : ℝ) < (var : ℝ) := Real.sqrt_pos.mp h1
    have h1q : 0 < var := by exact_mod_cast hvpos
    have hsv : 0 ≤ Real.sqrt (var : ℝ) := Real.sqrt_nonneg _
    have h2' : (avg : ℝ) < (bps : ℝ) := by nlinarith
    have hlt : 3 * Real.sqrt (var : ℝ) < (bps : ℝ) - (avg : ℝ) := by linarith
    have hsqlt : (3 * Real.sqrt (var : ℝ)) ^ 2 < ((bps : ℝ) - (avg : ℝ)) ^ 2 :=
      pow_lt_pow_left hlt (by positivity) (by norm_num)
    rw [mul_pow, Real.sq_sqrt hcast] at hsqlt
    refine ⟨h1q, by exact_mod_cast h2', ?_⟩
    have : 9 * (var : ℝ) < ((bps : ℝ) - (avg : ℝ)) ^ 2 := by nlinarith
    have hq : (9 : ℝ) * (var : ℝ) < (((bps - avg : ℚ)) : ℝ) ^ 2 := by push_cast; linarith
    exact_mod_cast hq

/-! ## The claims -/

/-- C1 (counterexample): in `update_bids [(100, 2), (100, 3)]` the two
entries share the price 100; the claim says the level at 100 retains both
as separate orders with `total_quantity = 2 + 3`.  In fact the second
entry's fresh level overwrites the first in the dict (one order, total 3),
and `bid_prices` lists the price twice. -/
theorem c1_counterexample :
    ((OrderBook.init "BTC").update_bids [(100, 2), (100, 3)]).bid_prices = [100, 100] ∧
    dictFind ((OrderBook.init "BTC").update_bids [(100, 2), (100, 3)]).bid_levels 100 =
      some { price := 100, orders := [{ price := 100, quantity := 3 }],
             total_quantity := 3 } ∧
    ¬ (dictGet ((OrderBook.init "BTC").update_bids [(100, 2), (100, 3)]).bid_levels
        100).total_quantity = 2 + 3 := by
  refine ⟨by decide, by decide, by decide⟩

/-- C1 (amended): after `update_bids`/`update_asks`, the level dict maps a
price to the level of the LAST retained entry at that price in the stable
sorted entry order — a fresh level holding exactly that one entry as its
single order, with `total_quantity` equal to that entry's quantity alone;
earlier same-price entries are overwritten and survive only as duplicate
occurrences in the price list. -/
theorem c1_last_entry_wins (b : OrderBook) (es : List (ℚ × ℚ)) (p : ℚ) :
    dictFind (b.update_bids es).bid_levels p =
      (lastRetained p (sortBids es)).map (fun q =>
        { price := p, orders := [{ price := p, quantity := q }],
          total_quantity := 0 + q }) ∧
    dictFind (b.update_asks es).ask_levels p =
      (lastRetained p (sortAsks es)).map (fun q =>
        { price := p, orders := [{ price := p, quantity := q }],
          total_quantity := 0 + q }) := by
  constructor
  · rw [update_bids_bid_levels, dictFind_rebuildLevels]
    rcases lastRetained p (sortBids es) with _ | q <;> rfl
  · rw [update_asks_ask_levels, dictFind_rebuildLevels]
    rcases lastRetained p (sortAsks es) with _ | q <;> rfl

/-- C2 (counterexample): populate both sides, then `update_bids []`.  The
bid side is now empty, yet `best_bid` still reads `some 100` and
`get_spread` still reads `some 1`: `_update_caches` never clears a cache. -/
theorem c2_counterexample :
    ((((OrderBook.init "SOL").update_bids [(100, 2)]).update_asks
        [(101, 1)]).update_bids []).bid_prices = [] ∧
    ((((OrderBook.init "SOL").update_bids [(100, 2)]).update_asks
        [(101, 1)]).update_bids []).best_bid = some 100 ∧
    ((((OrderBook.init "SOL").update_bids [(100, 2)]).update_asks
        [(101, 1)]).update_bids []).get_spread = some 1 := by
  refine ⟨by decide, by decide, by decide⟩

/-- C2 (amended): an update whose entries are all dropped leaves the side
empty but leaves the cached best price exactly as it was (so the cache is
absent only if the side had never been populated), and `get_spread` is
present iff both cached values are present and nonzero — regardless of
whether the sides are currently populated. -/
theorem c2_stale_caches (b : OrderBook) (es : List (ℚ × ℚ))
    (h : ∀ e ∈ es, entryOk e = false) :
    (b.update_bids es).bid_prices = [] ∧
    (b.update_bids es).best_bid = b.best_bid ∧
    (b.update_asks es).ask_prices = [] ∧
    (b.update_asks es).best_ask = b.best_ask ∧
    (∀ s : OrderBook,
      s.get_spread ≠ none ↔ truthy s.best_bid = true ∧ truthy s.best_ask = true) := by
  have hbids : rebuildPrices (sortBids es) = [] := by
    have hf : (sortBids es).filter entryOk = [] := by
      rw [List.filter_eq_nil_iff]
      intro e he
      rw [sortBids] at he
      rw [(List.perm_insertionSort bidLe es).mem_iff] at he
      simp [h e he]
    rw [rebuildPrices, hf]
    rfl
  have hasks : rebuildPrices (sortAsks es) = [] := by
    have hf : (sortAsks es).filter entryOk = [] := by
      rw [List.filter_eq_nil_iff]
      intro e he
      rw [sortAsks] at he
      rw [(List.perm_insertionSort askLe es).mem_iff] at he
      simp [h e he]
    rw [rebuildPrices, hf]
    rfl
  refine ⟨by rw [update_bids_bid_prices, hbids], ?_,
          by rw [update_asks_ask_prices, hasks], ?_, ?_⟩
  · rw [update_bids_best_bid, hbids]
  · rw [update_asks_best_ask, hasks]
  · intro s
    rw [OrderBook.get_spread]
    rcases s.best_bid with _ | x
    · simp [truthy]
    · rcases s.best_ask with _ | y
      · simp [truthy]
      · by_cases hx0 : x = 0
        · subst hx0
          simp [truthy]
        · by_cases hy0 : y = 0
          · subst hy0
            simp [truthy, hx0]
          · simp [truthy, hx0, hy0]

/-- C2 (witness): the amended statement applied to the fresh book and an
update list whose single entry has price 0. -/
theorem c2_witness :
    (∀ e ∈ [((0 : ℚ), (5 : ℚ))], entryOk e = false) ∧
    (((OrderBook.init "XRP").update_bids [((0 : ℚ), (5 : ℚ))]).bid_prices = [] ∧
     ((OrderBook.init "XRP").update_bids [((0 : ℚ), (5 : ℚ))]).best_bid =
        (OrderBook.init "XRP").best_bid ∧
     ((OrderBook.init "XRP").update_asks [((0 : ℚ), (5 : ℚ))]).ask_prices = [] ∧
     ((OrderBook.init "XRP").update_asks [((0 : ℚ), (5 : ℚ))]).best_ask =
        (OrderBook.init "XRP").best_ask ∧
     (∀ s : OrderBook,
       s.get_spread ≠ none ↔ truthy s.best_bid = true ∧ truthy s.best_ask = true)) :=
  ⟨by decide, c2_stale_caches (OrderBook.init "XRP") [((0 : ℚ), (5 : ℚ))] (by decide)⟩

/-- C3 (counterexample): duplicate retained prices make the stored bid
price list `[101, 100, 100]`, which is not strictly descending. -/
theorem c3_counterexample :
    ((OrderBook.init "ETH").update_bids [(101, 1), (100, 2), (100, 3)]).bid_prices =
      [101, 100, 100] ∧
    ¬ List.Pairwise (fun x y : ℚ => y < x)
        ((OrderBook.init "ETH").update_bids [(101, 1), (100, 2), (100, 3)]).bid_prices := by
  refine ⟨by decide, by decide⟩

/-- C3 (amended): after every reachable update sequence the bid prices are
descending and the ask prices ascending in the non-strict order (strictness
fails exactly on duplicate retained prices), and when a side is nonempty
its cached best price is a maximum (bids) resp. minimum (asks) of the
stored prices. -/
theorem c3_sorted_and_extremal (b : OrderBook) (hb : Reachable b) :
    b.bid_prices.Pairwise (fun x y => y ≤ x) ∧
    b.ask_prices.Pairwise (fun x y => x ≤ y) ∧
    (b.bid_prices ≠ [] → ∃ m, b.best_bid = some m ∧ m ∈ b.bid_prices ∧
      ∀ p ∈ b.bid_prices, p ≤ m) ∧
    (b.ask_prices ≠ [] → ∃ m, b.best_ask = some m ∧ m ∈ b.ask_prices ∧
      ∀ p ∈ b.ask_prices, m ≤ p) := by
  have hi := reachable_inv hb
  refine ⟨hi.bid_sorted, hi.ask_sorted, ?_, ?_⟩
  · intro hne
    rcases h : b.bid_prices with _ | ⟨m, rest⟩
    · exact absurd h hne
    · refine ⟨m, ?_, List.mem_cons_self m rest, ?_⟩
      · have hh := hi.bb_head hne
        rw [h] at hh
        simpa using hh
      · intro p hp
        have hs := hi.bid_sorted
        rw [h] at hs
        rcases List.mem_cons.mp hp with rfl | hp2
        · exact le_refl p
        · exact (List.pairwise_cons.mp hs).1 p hp2
  · intro hne
    rcases h : b.ask_prices with _ | ⟨m, rest⟩
    · exact absurd h hne
    · refine ⟨m, ?_, List.mem_cons_self m rest, ?_⟩
      · have hh := hi.ba_head hne
        rw [h] at hh
        simpa using hh
      · intro p hp
        have hs := hi.ask_sorted
        rw [h] at hs
        rcases List.mem_cons.mp hp with rfl | hp2
        · exact le_refl p
        · exact (List.pairwise_cons.mp hs).1 p hp2

/-- C3 (witness): the amended statement on a two-update reachable book. -/
theorem c3_witness :
    Reachable (((OrderBook.init "S").update_bids [(100, 2), (99, 3)]).update_asks
      [(101, 1), (102, 4)]) ∧
    ((((OrderBook.init "S").update_bids [(100, 2), (99, 3)]).update_asks
        [(101, 1), (102, 4)]).bid_prices.Pairwise (fun x y => y ≤ x) ∧
     (((OrderBook.init "S").update_bids [(100, 2), (99, 3)]).update_asks
        [(101, 1), (102, 4)]).ask_prices.Pairwise (fun x y => x ≤ y) ∧
     ((((OrderBook.init "S").update_bids [(100, 2), (99, 3)]).update_asks
        [(101, 1), (102, 4)]).bid_prices ≠ [] →
       ∃ m, (((OrderBook.init "S").update_bids [(100, 2), (99, 3)]).update_asks
          [(101, 1), (102, 4)]).best_bid = some m ∧
         m ∈ (((OrderBook.init "S").update_bids [(100, 2), (99, 3)]).update_asks
          [(101, 1), (102, 4)]).bid_prices ∧
         ∀ p ∈ (((OrderBook.init "S").update_bids [(100, 2), (99, 3)]).update_asks
          [(101, 1), (102, 4)]).bid_prices, p ≤ m) ∧
     ((((OrderBook.init "S").update_bids [(100, 2), (99, 3)]).update_asks
        [(101, 1), (102, 4)]).ask_prices ≠ [] →
       ∃ m, (((OrderBook.init "S").update_bids [(100, 2), (99, 3)]).update_asks
          [(101, 1), (102, 4)]).best_ask = some m ∧
         m ∈ (((OrderBook.init "S").update_bids [(100, 2), (99, 3)]).update_asks
          [(101, 1), (102, 4)]).ask_prices ∧
         ∀ p ∈ (((OrderBook.init "S").update_bids [(100, 2), (99, 3)]).update_asks
          [(101, 1), (102, 4)]).ask_prices, m ≤ p)) :=
  ⟨Reachable.update_asks _ (Reachable.update_bids _ (Reachable.init "S")),
   c3_sorted_and_extremal _
     (Reachable.update_asks _ (Reachable.update_bids _ (Reachable.init "S")))⟩

/-- C4 (counterexample): with an absent mid price, an invalid side given to
`estimate_slippage` is NOT rejected — the mid-price guard returns the zero
result before the side is ever validated. -/
theorem c4_counterexample :
    ("hold" ≠ "buy" ∧ "hold" ≠ "sell") ∧
    (OrderBook.init "ADA").estimate_slippage 1 "hold" =
      .ok { slippage_bps := 0, slippage_abs := 0 } := by
  refine ⟨by decide, by decide⟩

/-- C4 (amended): `estimate_vwap` fails exactly when the side is outside
buy/sell; `estimate_slippage` fails exactly when the side is outside
buy/sell AND the cached mid price is truthy (its mid-price guard precedes
side validation, so an invalid side with an absent mid returns the zero
result instead of failing). -/
theorem c4_invalid_side (b : OrderBook) (q : ℚ) (side : String) :
    ((∃ e, b.estimate_vwap q side = .error e) ↔ (side ≠ "buy" ∧ side ≠ "sell")) ∧
    ((∃ e, b.estimate_slippage q side = .error e) ↔
      ((side ≠ "buy" ∧ side ≠ "sell") ∧ truthy b.mid_price = true)) := by
  by_cases hside : side ≠ "buy" ∧ side ≠ "sell"
  · have hv : b.estimate_vwap q side = .error "Side must be buy or sell" := by
      rw [OrderBook.estimate_vwap, if_pos hside]
    refine ⟨⟨fun _ => hside, fun _ => by rw [hv]; exact ⟨_, rfl⟩⟩, ?_⟩
    by_cases hmid : truthy b.mid_price = true
    · have hs2 : b.estimate_slippage q side = .error "Side must be buy or sell" := by
        rw [OrderBook.estimate_slippage, if_neg (by simp [hmid]), hv]
      rw [hs2]
      exact ⟨fun _ => ⟨hside, hmid⟩, fun _ => ⟨_, rfl⟩⟩
    · have hs2 : b.estimate_slippage q side =
          .ok { slippage_bps := 0, slippage_abs := 0 } := by
        rw [OrderBook.estimate_slippage, if_pos (by simpa using hmid)]
      rw [hs2]
      constructor
      · rintro ⟨e, he⟩
        simp at he
      · rintro ⟨_, hm⟩
        exact absurd hm hmid
  · have hok : ∃ r, b.estimate_vwap q side = .ok r := by
      rcases hvw : b.estimate_vwap q side with e | r
      · exfalso
        rw [OrderBook.estimate_vwap, if_neg hside] at hvw
        simp only at hvw
        split at hvw <;> split at hvw <;> simp at hvw
      · exact ⟨r, rfl⟩
    obtain ⟨r, hr⟩ := hok
    constructor
    · rw [hr]
      constructor
      · rintro ⟨e, he⟩
        simp at he
      · intro hc
        exact absurd hc hside
    · by_cases hmid : truthy b.mid_price = true
      · have hok2 : ∃ r2, b.estimate_slippage q side = .ok r2 := by
          rw [OrderBook.estimate_slippage, if_neg (by simp [hmid]), hr]
          simp only
          by_cases hf : r.filled = 0
          · rw [if_pos hf]
            exact ⟨_, rfl⟩
          · rw [if_neg hf]
            exact ⟨_, rfl⟩
        obtain ⟨r2, hr2⟩ := hok2
        rw [hr2]
        constructor
        · rintro ⟨e, he⟩
          simp at he
        · rintro ⟨hc, _⟩
          exact absurd hc hside
      · have hs2 : b.estimate_slippage q side =
            .ok { slippage_bps := 0, slippage_abs := 0 } := by
          rw [OrderBook.estimate_slippage, if_pos (by simpa using hmid)]
        rw [hs2]
        constructor
        · rintro ⟨e, he⟩
          simp at he
        · rintro ⟨hc, _⟩
          exact absurd hc hside

/-- C7: for a valid side and a nonnegative quantity, `estimate_vwap`
succeeds; the fill never exceeds the request, the remainder is exactly the
request minus the fill, the request is filled completely whenever the
walked side's cumulative liquidity covers it, and a zero fill yields the
zero-valued result.  (The walk itself — whole levels from the best price
outward, one partial level at the end — is the embedded `vwapWalk`.) -/
theorem c7_vwap_fill_bounds (b : OrderBook) (q : ℚ) (side : String)
    (hq : 0 ≤ q) (hs : side = "buy" ∨ side = "sell") :
    ∃ r : VwapResult, b.estimate_vwap q side = .ok r ∧
      r.filled ≤ q ∧
      r.remaining = q - r.filled ∧
      (q ≤ sideLiquidity (if side = "buy" then b.ask_prices else b.bid_prices)
            (if side = "buy" then b.ask_levels else b.bid_levels) → r.filled = q) ∧
      (r.filled = 0 → r = { vwap := 0, filled := 0, remaining := q }) := by
  have hns : ¬ (side ≠ "buy" ∧ side ≠ "sell") := by
    rcases hs with h | h <;> simp [h]
  rw [OrderBook.estimate_vwap, if_neg hns]
  simp only
  by_cases h0 : (vwapWalk q (if side = "buy" then b.ask_levels else b.bid_levels)
      (if side = "buy" then b.ask_prices else b.bid_prices) 0 0).2 = 0
  · rw [if_pos h0]
    refine ⟨_, rfl, hq, by norm_num, ?_, fun _ => rfl⟩
    intro hliq
    have := vwapWalk_filled_eq q
      (if side = "buy" then b.ask_levels else b.bid_levels)
      (if side = "buy" then b.ask_prices else b.bid_prices) 0 0 hq (by linarith)
    rw [h0] at this
    exact this
  · rw [if_neg h0]
    refine ⟨_, rfl,
      vwapWalk_filled_le q _ _ 0 0 hq, rfl, ?_, fun hc => absurd hc h0⟩
    intro hliq
    exact vwapWalk_filled_eq q _ _ 0 0 hq (by linarith)

/-- C9: applying the same `update_bids` (resp. `update_asks`) call twice in
succession leaves `best_bid`, `best_ask`, `mid_price` and every
`get_depth` query identical to applying it once. -/
theorem c9_update_idempotent (b : OrderBook) (es : List (ℚ × ℚ)) :
    ((b.update_bids es).update_bids es).best_bid = (b.update_bids es).best_bid ∧
    ((b.update_bids es).update_bids es).best_ask = (b.update_bids es).best_ask ∧
    ((b.update_bids es).update_bids es).mid_price = (b.update_bids es).mid_price ∧
    (∀ n, ((b.update_bids es).update_bids es).get_depth n = (b.update_bids es).get_depth n) ∧
    ((b.update_asks es).update_asks es).best_bid = (b.update_asks es).best_bid ∧
    ((b.update_asks es).update_asks es).best_ask = (b.update_asks es).best_ask ∧
    ((b.update_asks es).update_asks es).mid_price = (b.update_asks es).mid_price ∧
    (∀ n, ((b.update_asks es).update_asks es).get_depth n = (b.update_asks es).get_depth n) := by
  have hbb : ((b.update_bids es).update_bids es).best_bid = (b.update_bids es).best_bid := by
    rcases h : rebuildPrices (sortBids es) with _ | ⟨p, rest⟩
    · rw [update_bids_best_bid (b.update_bids es) es, h]
    · rw [update_bids_best_bid (b.update_bids es) es, h,
        update_bids_best_bid b es, h]
  have hba : ((b.update_bids es).update_bids es).best_ask = (b.update_bids es).best_ask := by
    rcases h : b.ask_prices with _ | ⟨p, rest⟩
    · rw [update_bids_best_ask (b.update_bids es) es, update_bids_ask_prices, h]
    · rw [update_bids_best_ask (b.update_bids es) es, update_bids_ask_prices, h,
        update_bids_best_ask b es, h]
  have hmidb : ((b.update_bids es).update_bids es).mid_price = (b.update_bids es).mid_price := by
    rw [update_bids_mid_price (b.update_bids es) es, hbb, hba]
    rcases hx : (b.update_bids es).best_bid with _ | x
    · rfl
    rcases hy : (b.update_bids es).best_ask with _ | y
    · rfl
    simp only
    split
    · next hcond =>
        rw [update_bids_mid_price b es, hx, hy]
        simp only
        rw [if_pos hcond]
    · rfl
  have hab : ((b.update_asks es).update_asks es).best_ask = (b.update_asks es).best_ask := by
    rcases h : rebuildPrices (sortAsks es) with _ | ⟨p, rest⟩
    · rw [update_asks_best_ask (b.update_asks es) es, h]
    · rw [update_asks_best_ask (b.update_asks es) es, h,
        update_asks_best_ask b es, h]
  have haa : ((b.update_asks es).update_asks es).best_bid = (b.update_asks es).best_bid := by
    rcases h : b.bid_prices with _ | ⟨p, rest⟩
    · rw [update_asks_best_bid (b.update_asks es) es, update_asks_bid_prices, h]
    · rw [update_asks_best_bid (b.update_asks es) es, update_asks_bid_prices, h,
        update_asks_best_bid b es, h]
  have hmida : ((b.update_asks es).update_asks es).mid_price = (b.update_asks es).mid_price := by
    rw [update_asks_mid_price (b.update_asks es) es, haa, hab]
    rcases hx : (b.update_asks es).best_bid with _ | x
    · rfl
    rcases hy : (b.update_asks es).best_ask with _ | y
    · rfl
    simp only
    split
    · next hcond =>
        rw [update_asks_mid_price b es, hx, hy]
        simp only
        rw [if_pos hcond]
    · rfl
  exact ⟨hbb, hba, hmidb, fun n => rfl, haa, hab, hmida, fun n => rfl⟩

/-- C10: `update_bids` leaves the ask-side structures and the cached
`best_ask` of a reachable book unchanged, and `update_asks` symmetrically
leaves the bid-side structures and the cached `best_bid` unchanged. -/
theorem c10_frame (b : OrderBook) (hb : Reachable b) (es : List (ℚ × ℚ)) :
    ((b.update_bids es).ask_prices = b.ask_prices ∧
     (b.update_bids es).ask_levels = b.ask_levels ∧
     (b.update_bids es).best_ask = b.best_ask) ∧
    ((b.update_asks es).bid_prices = b.bid_prices ∧
     (b.update_asks es).bid_levels = b.bid_levels ∧
     (b.update_asks es).best_bid = b.best_bid) :=
  ⟨⟨rfl, rfl, update_bids_best_ask_eq b es (reachable_inv hb)⟩,
   ⟨rfl, rfl, update_asks_best_bid_eq b es (reachable_inv hb)⟩⟩

/-- C6: on every reachable book, a present cached mid price equals the
arithmetic mean of the two cached best prices as recomputed by the same
update (no mismatched combination is observable), and whenever both sides
are currently populated, `get_spread` is exactly `best_ask - best_bid` and
`mid_price` exactly `(best_bid + best_ask) / 2`. -/
theorem c6_cache_coherence (b : OrderBook) (hb : Reachable b) :
    (∀ m, b.mid_price = some m →
      ∃ x y, b.best_bid = some x ∧ b.best_ask = some y ∧ m = (x + y) / 2) ∧
    (b.bid_prices ≠ [] → b.ask_prices ≠ [] →
      ∃ x y, b.best_bid = some x ∧ b.best_ask = some y ∧
        b.get_spread = some (y - x) ∧ b.mid_price = some ((x + y) / 2)) := by
  have hi := reachable_inv hb
  constructor
  · intro m hm
    rcases hx : b.best_bid with _ | x
    · rw [hi.mid_none (Or.inl hx)] at hm
      cases hm
    rcases hy : b.best_ask with _ | y
    · rw [hi.mid_none (Or.inr hy)] at hm
      cases hm
    have hme := hi.mid_eq x y hx hy
    rw [hme] at hm
    injection hm with hm
    exact ⟨x, y, rfl, rfl, hm.symm⟩
  · intro hbne hane
    rcases h1 : b.bid_prices with _ | ⟨x0, brest⟩
    · exact absurd h1 hbne
    rcases h2 : b.ask_prices with _ | ⟨y0, arest⟩
    · exact absurd h2 hane
    have hx : b.best_bid = some x0 := by
      have hh := hi.bb_head hbne
      rw [h1] at hh
      simpa using hh
    have hy : b.best_ask = some y0 := by
      have hh := hi.ba_head hane
      rw [h2] at hh
      simpa using hh
    have hxpos := hi.bb_pos x0 hx
    have hypos := hi.ba_pos y0 hy
    refine ⟨x0, y0, hx, hy, ?_, hi.mid_eq x0 y0 hx hy⟩
    rw [OrderBook.get_spread, hx, hy]
    simp only
    rw [if_pos ⟨ne_of_gt hxpos, ne_of_gt hypos⟩]

/-- A small two-sided reachable book used by witnesses: bids 100 (qty 2)
and 99 (qty 3); asks 101 (qty 1) and 102 (qty 4). -/
def sampleBook : OrderBook :=
  ((OrderBook.init "S").update_bids [(100, 2), (99, 3)]).update_asks
    [(101, 1), (102, 4)]

theorem sampleBook_reachable : Reachable sampleBook :=
  Reachable.update_asks _ (Reachable.update_bids _ (Reachable.init "S"))

/-- C6 (witness): the cache-coherence statement on the sample book. -/
theorem c6_witness :
    Reachable sampleBook ∧
    ((∀ m, sampleBook.mid_price = some m →
       ∃ x y, sampleBook.best_bid = some x ∧ sampleBook.best_ask = some y ∧
         m = (x + y) / 2) ∧
     (sampleBook.bid_prices ≠ [] → sampleBook.ask_prices ≠ [] →
       ∃ x y, sampleBook.best_bid = some x ∧ sampleBook.best_ask = some y ∧
         sampleBook.get_spread = some (y - x) ∧
         sampleBook.mid_price = some ((x + y) / 2))) :=
  ⟨sampleBook_reachable, c6_cache_coherence sampleBook sampleBook_reachable⟩

/-- C7 (witness): the fill bounds at quantity 3/2 buying into the sample
book (the spec's own worked example). -/
theorem c7_witness :
    (0 ≤ (3/2 : ℚ)) ∧ ("buy" = "buy" ∨ "buy" = "sell") ∧
    (∃ r : VwapResult, sampleBook.estimate_vwap (3/2) "buy" = .ok r ∧
      r.filled ≤ 3/2 ∧
      r.remaining = 3/2 - r.filled ∧
      ((3/2 : ℚ) ≤ sideLiquidity
            (if "buy" = "buy" then sampleBook.ask_prices else sampleBook.bid_prices)
            (if "buy" = "buy" then sampleBook.ask_levels else sampleBook.bid_levels) →
        r.filled = 3/2) ∧
      (r.filled = 0 → r = { vwap := 0, filled := 0, remaining := 3/2 })) :=
  ⟨by norm_num, Or.inl rfl,
   c7_vwap_fill_bounds sampleBook (3/2) "buy" (by norm_num) (Or.inl rfl)⟩

/-- C10 (witness): the frame statement on the sample book and a one-entry
update list. -/
theorem c10_witness :
    Reachable sampleBook ∧
    (((sampleBook.update_bids [(98, 1)]).ask_prices = sampleBook.ask_prices ∧
      (sampleBook.update_bids [(98, 1)]).ask_levels = sampleBook.ask_levels ∧
      (sampleBook.update_bids [(98, 1)]).best_ask = sampleBook.best_ask) ∧
     ((sampleBook.update_asks [(98, 1)]).bid_prices = sampleBook.bid_prices ∧
      (sampleBook.update_asks [(98, 1)]).bid_levels = sampleBook.bid_levels ∧
      (sampleBook.update_asks [(98, 1)]).best_bid = sampleBook.best_bid)) :=
  ⟨sampleBook_reachable, c10_frame sampleBook sampleBook_reachable [(98, 1)]⟩

theorem resilience_formula (d : Depth) (h3b : 3 ≤ d.bids.length)
    (h3a : 3 ≤ d.asks.length) :
    DepthAnalyzer.calculate_resilience_score d =
      max 0 (min 100 (100 * (1 - (herfindahl_index (d.bids.map (·.quantity)) +
        herfindahl_index (d.asks.map (·.quantity))) / 2))) := by
  rw [DepthAnalyzer.calculate_resilience_score, if_neg (by omega)]

/-- C8: the resilience score of any queried depth lies in `[0, 100]` and is
exactly `0` when either side shows fewer than 3 levels; and against any
fixed nonnegative ask side of at least 3 levels, uniform bid quantities
`[5, 5, 5, 5, 5]` score strictly higher than concentrated quantities
`[20, 1, 1, 1, 1]`. -/
theorem c8_resilience :
    (∀ (b : OrderBook) (n : ℕ),
      0 ≤ DepthAnalyzer.calculate_resilience_score (b.get_depth n) ∧
      DepthAnalyzer.calculate_resilience_score (b.get_depth n) ≤ 100 ∧
      ((b.get_depth n).bids.length < 3 ∨ (b.get_depth n).asks.length < 3 →
        DepthAnalyzer.calculate_resilience_score (b.get_depth n) = 0)) ∧
    (∀ d1 d2 : Depth, d1.asks = d2.asks →
      (∀ l ∈ d2.asks, 0 ≤ l.quantity) → 3 ≤ d2.asks.length →
      d1.bids.map (·.quantity) = [5, 5, 5, 5, 5] →
      d2.bids.map (·.quantity) = [20, 1, 1, 1, 1] →
      DepthAnalyzer.calculate_resilience_score d2 <
        DepthAnalyzer.calculate_resilience_score d1) := by
  constructor
  · intro b n
    rw [DepthAnalyzer.calculate_resilience_score]
    split
    · exact ⟨le_refl 0, by norm_num, fun _ => rfl⟩
    · next hcond =>
        refine ⟨le_max_left 0 _, ?_, fun hc => absurd hc hcond⟩
        exact max_le (by norm_num) (min_le_left _ _)
  · intro d1 d2 hasks hanneg halen hb1 hb2
    have hlen1 : d1.bids.length = 5 := by
      have hl := congrArg List.length hb1
      simpa using hl
    have hlen2 : d2.bids.length = 5 := by
      have hl := congrArg List.length hb2
      simpa using hl
    have hH1 : herfindahl_index (d1.bids.map (·.quantity)) = 1/5 := by
      rw [hb1]
      rw [herfindahl_index]
      norm_num
    have hH2 : herfindahl_index (d2.bids.map (·.quantity)) = 101/144 := by
      rw [hb2]
      rw [herfindahl_index]
      norm_num
    rw [resilience_formula d1 (by omega) (by rw [hasks]; exact halen),
        resilience_formula d2 (by omega) halen,
        hH1, hH2, hasks]
    have hHa0 : 0 ≤ herfindahl_index (d2.asks.map (·.quantity)) :=
      herfindahl_nonneg _
    have hHa1 : herfindahl_index (d2.asks.map (·.quantity)) ≤ 1 := by
      apply herfindahl_le_one
      intro x hx
      rw [List.mem_map] at hx
      obtain ⟨l, hl, rfl⟩ := hx
      exact hanneg l hl
    set Ha := herfindahl_index (d2.asks.map (·.quantity)) with hHa
    rw [min_eq_right (by linarith), min_eq_right (by linarith),
        max_eq_right (by linarith), max_eq_right (by linarith)]
    linarith

/-- A fixed three-level ask side for the C8 witness. -/
def c8Asks : List DepthLevel :=
  [{ price := 101, quantity := 2, order_count := 1 },
   { price := 102, quantity := 3, order_count := 1 },
   { price := 103, quantity := 4, order_count := 1 }]

/-- Uniform bid quantities `[5, 5, 5, 5, 5]` over the fixed ask side. -/
def c8Uniform : Depth :=
  { bids := [{ price := 100, quantity := 5, order_count := 1 },
             { price := 99, quantity := 5, order_count := 1 },
             { price := 98, quantity := 5, order_count := 1 },
             { price := 97, quantity := 5, order_count := 1 },
             { price := 96, quantity := 5, order_count := 1 }],
    asks := c8Asks, total_bid_volume := 25, total_ask_volume := 9 }

/-- Concentrated bid quantities `[20, 1, 1, 1, 1]` over the same ask side. -/
def c8Concentrated : Depth :=
  { bids := [{ price := 100, quantity := 20, order_count := 1 },
             { price := 99, quantity := 1, order_count := 1 },
             { price := 98, quantity := 1, order_count := 1 },
             { price := 97, quantity := 1, order_count := 1 },
             { price := 96, quantity := 1, order_count := 1 }],
    asks := c8Asks, total_bid_volume := 24, total_ask_volume := 9 }

/-- C8 (witness): the comparison instantiated at the two concrete depths. -/
theorem c8_witness :
    c8Uniform.asks = c8Concentrated.asks ∧
    (∀ l ∈ c8Concentrated.asks, 0 ≤ l.quantity) ∧
    3 ≤ c8Concentrated.asks.length ∧
    c8Uniform.bids.map (·.quantity) = [5, 5, 5, 5, 5] ∧
    c8Concentrated.bids.map (·.quantity) = [20, 1, 1, 1, 1] ∧
    DepthAnalyzer.calculate_resilience_score c8Concentrated <
      DepthAnalyzer.calculate_resilience_score c8Uniform :=
  ⟨rfl, by decide, by decide, by decide, by decide,
   c8_resilience.2 c8Uniform c8Concentrated rfl (by decide) (by decide)
     (by decide) (by decide)⟩

theorem detect_wide_spread_congr (history : List SpreadMetrics)
    (m m2 : SpreadMetrics) (h : m.spread_bps = m2.spread_bps) :
    SpreadAnalyzer.detect_wide_spread history m =
      SpreadAnalyzer.detect_wide_spread history m2 := by
  rw [SpreadAnalyzer.detect_wide_spread, SpreadAnalyzer.detect_wide_spread, h]

theorem calc_metrics_bps (book : OrderBook) (history : List SpreadMetrics)
    (s mid : ℚ) (h1 : book.get_spread = some s) (h2 : book.mid_price = some mid)
    (h3 : mid ≠ 0) :
    (SpreadAnalyzer.calculate_all_metrics book history).1.spread_bps =
      s / mid * 100 * 100 := by
  rw [SpreadAnalyzer.calculate_all_metrics.eq_def, h1, h2]
  simp only
  rw [if_neg h3]

theorem calc_metrics_flag (book : OrderBook) (history : List SpreadMetrics)
    (s mid : ℚ) (h1 : book.get_spread = some s) (h2 : book.mid_price = some mid)
    (h3 : mid ≠ 0) :
    (SpreadAnalyzer.calculate_all_metrics book history).1.is_wide_spread =
      SpreadAnalyzer.detect_wide_spread history
        { spread_bps := s / mid * 100 * 100 } := by
  rw [SpreadAnalyzer.calculate_all_metrics.eq_def, h1, h2]
  simp only
  rw [if_neg h3]
  exact detect_wide_spread_congr _ _ _ rfl

/-- C5 (amended): on a call with a usable spread and mid price, the
wide-spread flag is true iff at least 10 prior samples exist and either
the 3-sigma test fires — which additionally requires the trailing-10
standard deviation to be POSITIVE — or the current bps spread exceeds 50.
With `sigma = 0` the 3-sigma branch never fires even if the current bps
spread exceeds the trailing mean. -/
theorem c5_wide_spread_iff (book : OrderBook) (history : List SpreadMetrics)
    (s mid : ℚ) (h1 : book.get_spread = some s) (h2 : book.mid_price = some mid)
    (h3 : mid ≠ 0) :
    ((SpreadAnalyzer.calculate_all_metrics book history).1.is_wide_spread = true ↔
      (10 ≤ history.length ∧
        ((0 < Real.sqrt ((listVar ((history.drop (history.length - 10)).map
              (·.spread_bps)) : ℚ) : ℝ) ∧
          ((listMean ((history.drop (history.length - 10)).map (·.spread_bps)) : ℚ) : ℝ) +
            3 * Real.sqrt ((listVar ((history.drop (history.length - 10)).map
              (·.spread_bps)) : ℚ) : ℝ) <
            (((SpreadAnalyzer.calculate_all_metrics book history).1.spread_bps : ℚ) : ℝ)) ∨
         50 < (SpreadAnalyzer.calculate_all_metrics book history).1.spread_bps))) := by
  rw [calc_metrics_flag book history s mid h1 h2 h3,
      calc_metrics_bps book history s mid h1 h2 h3,
      SpreadAnalyzer.detect_wide_spread]
  by_cases hlen : history.length < 10
  · rw [if_pos hlen]
    simp only [Bool.false_eq_true, false_iff]
    rintro ⟨h10, _⟩
    omega
  · rw [if_neg hlen]
    have h10 : 10 ≤ history.length := by omega
    dsimp only
    set R := (history.drop (history.length - 10)).map (·.spread_bps) with hR
    set bps := s / mid * 100 * 100 with hbps
    have hsig := sigma_test_iff bps (listMean R) (listVar R) (listVar_nonneg R)
    by_cases hA : 0 < listVar R ∧ listMean R < bps ∧
        9 * listVar R < (bps - listMean R) ^ 2
    · rw [if_pos hA]
      exact ⟨fun _ => ⟨h10, Or.inl (hsig.mp hA)⟩, fun _ => rfl⟩
    · rw [if_neg hA]
      by_cases hB : 50 < bps
      · rw [if_pos hB]
        exact ⟨fun _ => ⟨h10, Or.inr hB⟩, fun _ => rfl⟩
      · rw [if_neg hB]
        constructor
        · intro hc
          exact absurd hc (by simp)
        · rintro ⟨_, hA2 | hB2⟩
          · exact absurd (hsig.mpr hA2) hA
          · exact absurd hB2 hB

/-- The book behind the first ten analyzer calls of the C5 counterexample:
bid 99.9, ask 100.1, so mid 100 and a bps spread of exactly 20. -/
def c5Book1 : OrderBook :=
  ((OrderBook.init "C5").update_bids [(999/10, 5)]).update_asks [(1001/10, 5)]

/-- The book of the eleventh call: bid 99.75, ask 100.25, so mid 100 and a
bps spread of exactly 50. -/
def c5Book2 : OrderBook :=
  ((OrderBook.init "C5").update_bids [(399/4, 5)]).update_asks [(401/4, 5)]

/-- The analyzer history after `n` `calculate_all_metrics` calls on
`c5Book1`, starting from the empty history. -/
def c5History : ℕ → List SpreadMetrics
  | 0 => []
  | n + 1 => (SpreadAnalyzer.calculate_all_metrics c5Book1 (c5History n)).2

/-- C5 (counterexample): after ten identical-spread calls the trailing-10
standard deviation is 0, so the claim's condition (current bps spread
exceeds mean + 3 sigma) holds on the eleventh call — its bps spread is 50
against a trailing mean of 20 — yet the flag is false, because the code's
3-sigma branch demands a positive sigma and 50 is not strictly above the
50-bps threshold. -/
theorem c5_counterexample :
    10 ≤ (c5History 10).length ∧
    ((listMean (((c5History 10).drop ((c5History 10).length - 10)).map
        (·.spread_bps)) : ℚ) : ℝ) +
      3 * Real.sqrt ((listVar (((c5History 10).drop ((c5History 10).length - 10)).map
        (·.spread_bps)) : ℚ) : ℝ) <
      (((SpreadAnalyzer.calculate_all_metrics c5Book2 (c5History 10)).1.spread_bps : ℚ) : ℝ) ∧
    (SpreadAnalyzer.calculate_all_metrics c5Book2 (c5History 10)).1.is_wide_spread = false := by
  refine ⟨by decide, ?_, by decide⟩
  have hvar : listVar (((c5History 10).drop ((c5History 10).length - 10)).map
      (·.spread_bps)) = 0 := by decide
  have hmean : listMean (((c5History 10).drop ((c5History 10).length - 10)).map
      (·.spread_bps)) = 20 := by decide
  have hbps : (SpreadAnalyzer.calculate_all_metrics c5Book2 (c5History 10)).1.spread_bps =
      50 := by decide
  rw [hvar, hmean, hbps]
  rw [Rat.cast_zero, Real.sqrt_zero]
  norm_num

/-- C5 (witness): the amended statement instantiated at `c5Book1` with an
empty history (spread 1/5, mid 100). -/
theorem c5_witness :
    c5Book1.get_spread = some (1/5) ∧ c5Book1.mid_price = some 100 ∧
    ((100 : ℚ) ≠ 0) ∧
    ((SpreadAnalyzer.calculate_all_metrics c5Book1
        ([] : List SpreadMetrics)).1.is_wide_spread = true ↔
      (10 ≤ ([] : List SpreadMetrics).length ∧
        ((0 < Real.sqrt ((listVar ((([] : List SpreadMetrics).drop
              (([] : List SpreadMetrics).length - 10)).map (·.spread_bps)) : ℚ) : ℝ) ∧
          ((listMean ((([] : List SpreadMetrics).drop
              (([] : List SpreadMetrics).length - 10)).map (·.spread_bps)) : ℚ) : ℝ) +
            3 * Real.sqrt ((listVar ((([] : List SpreadMetrics).drop
              (([] : List SpreadMetrics).length - 10)).map (·.spread_bps)) : ℚ) : ℝ) <
            (((SpreadAnalyzer.calculate_all_metrics c5Book1
              ([] : List SpreadMetrics)).1.spread_bps : ℚ) : ℝ)) ∨
         50 < (SpreadAnalyzer.calculate_all_metrics c5Book1
              ([] : List SpreadMetrics)).1.spread_bps))) :=
  ⟨by decide, by decide, by norm_num,
   c5_wide_spread_iff c5Book1 [] (1/5) 100 (by decide) (by decide) (by norm_num)⟩

end OrderBookCore
